import Mathlib

/-!
Verification of the Gemini backend adapter of this repository
(`pydantic_ai/models/gemini.py`) against its natural-language specification.

The Python source is shallowly embedded: mutable dictionaries become
association lists that are threaded functionally, exceptions become an
`Except` monad, and the recursive JSON-schema simplifier is given an explicit
fuel argument (the Python recursion has no fuel; `Err.outOfFuel` at every fuel
models nontermination / Python's `RecursionError`).
-/

set_option maxHeartbeats 1000000

namespace PydanticAI

/-- JSON values, the shape of the `dict[str, Any]` data the Gemini adapter
manipulates.  Python dictionaries keep insertion order and have unique keys;
they are represented as association lists. -/
inductive JVal where
  | null
  | bool (b : Bool)
  | num (n : Int)
  | str (s : String)
  | arr (elems : List JVal)
  | obj (fields : List (String × JVal))
deriving Repr

abbrev JDict := List (String × JVal)

/-- `d.get(k)` on a Python dict: first binding of the key, if any. -/
def dGet (d : JDict) (k : String) : Option JVal :=
  match d.find? (fun p => p.1 == k) with
  | some p => some p.2
  | none => none

/-- `d.pop(k, None)` / `del d[k]`: remove the binding of a key. -/
def dRemove (d : JDict) (k : String) : JDict :=
  d.filter (fun p => p.1 ≠ k)

/-- `d[k] = v`: overwrite in place if the key exists, else append. -/
def dSet (d : JDict) (k : String) (v : JVal) : JDict :=
  if d.any (fun p => p.1 == k) then
    d.map (fun p => if p.1 == k then (k, v) else p)
  else
    d ++ [(k, v)]

/-- `d.update(other)`: assign every binding of `other` into `d`, in order. -/
def dUpdate (d : JDict) : JDict → JDict
  | [] => d
  | (k, v) :: rest => dUpdate (dSet d k v) rest

/-- Python truthiness of a JSON value (`if x:`). -/
def truthy : JVal → Bool
  | .null => false
  | .bool b => b
  | .num n => n != 0
  | .str s => s ≠ ""
  | .arr elems => !elems.isEmpty
  | .obj fields => !fields.isEmpty

/-- Python truthiness of `d.get(k)` (absent key gives `None`, which is falsy). -/
def truthyOpt : Option JVal → Bool
  | some v => truthy v
  | none => false

/-- The failure modes of the embedded code.  `userError` is
`exceptions.UserError`, `unexpectedModelBehaviour` is
`UnexpectedModelBehaviour`; `pyError` stands for an unhandled Python
exception (KeyError, IndexError, AttributeError, AssertionError, TypeError);
`outOfFuel` is the fuel marker of the embedding, never raised by Python code:
a result that is `outOfFuel` at every fuel is a nonterminating execution. -/
inductive Err where
  | userError (msg : String)
  | unexpectedModelBehaviour (msg : String)
  | pyError (msg : String)
  | outOfFuel
deriving Repr, DecidableEq

/-- Modelled from the spec: `_utils.Either`, the strict two-armed sum used by
the adapter (`_utils.py` is not among the provided sources; spec section 3
describes it as a strict two-armed sum, never both, never neither). -/
inductive UEither (L R : Type) where
  | left (value : L)
  | right (value : R)
deriving Repr, DecidableEq

def UEither.is_left {L R : Type} : UEither L R → Bool
  | .left _ => true
  | .right _ => false

/-- Modelled from the spec: the `args` payload of a `ToolCall`
(`messages.py` is not among the provided sources; spec section 3: args is
either a structured object, `ArgsObject`, or a raw JSON-text payload,
lazily parsed, built by the second constructor `ToolCall.from_json`). -/
inductive Args where
  | argsObject (args_object : JDict)
  | argsJson (args_json : String)
deriving Repr

/-- Modelled from the spec: `ToolCall` from `messages.py`:
`{ tool_name, args, tool_id? }`. -/
structure ToolCall where
  tool_name : String
  args : Args
  tool_id : Option String
deriving Repr

/-- `ToolCall.from_object`: constructor from a parsed argument object. -/
def ToolCall.from_object (tool_name : String) (args : JDict) : ToolCall :=
  ⟨tool_name, .argsObject args, none⟩

/-- Modelled from the spec: the `LLMToolCalls` message variant (tool
invocation requests from the model), with its construction timestamp. -/
structure LLMToolCalls where
  calls : List ToolCall
  timestamp : Nat
deriving Repr

/-- Modelled from the spec: the `LLMResponse` message variant (final
natural-language answer), with its construction timestamp. -/
structure LLMResponse where
  content : String
  timestamp : Nat
deriving Repr, DecidableEq

/-- Modelled from the spec: `LLMMessage`, the union of the two messages a
model may produce. -/
inductive LLMMessage where
  | response (r : LLMResponse)
  | toolCalls (t : LLMToolCalls)
deriving Repr

/-- Modelled from the spec: `result.Cost` (`result.py` is not among the
provided sources; spec section 3: three optional token counters and a
string-to-int details map). -/
structure Cost where
  request_tokens : Option Int
  response_tokens : Option Int
  total_tokens : Option Int
  details : List (String × Int)
deriving Repr, DecidableEq

/-! ## The fixed Gemini response shape (`_GeminiResponse` and friends) -/

/-- `_GeminiFunctionCall`: `{ name, args }`. -/
structure GFunctionCall where
  name : String
  args : JDict
deriving Repr

/-- `_GeminiPartUnion`: a part is exactly one of a text part, a function-call
part or a function-response part (the pydantic TypeAdapter validates the
union, so a part always has exactly one of the three shapes; the Python
`'function_call' in part` / `'text' in part` key tests become constructor
tests). -/
inductive GPart where
  | text (text : String)
  | functionCall (function_call : GFunctionCall)
  | functionResponse (name : String) (response : JDict)
deriving Repr

/-- Roles of `_GeminiContent`. -/
inductive GRole where
  | user
  | model
deriving Repr, DecidableEq

/-- `_GeminiContent`: `{ role, parts }`. -/
structure GContent where
  role : GRole
  parts : List GPart
deriving Repr

/-- The only `finishReason` value the response schema admits
(`Literal['STOP']`), so a present finish reason is always truthy. -/
inductive GFinishReason where
  | STOP
deriving Repr, DecidableEq

/-- `_GeminiCandidates`: the fields the adapter reads (`content` and the
optional `finish_reason`; the optional `avg_log_probs`, `index` and
`safety_ratings` fields are never read by any code under verification and
are omitted). -/
structure GCandidate where
  content : GContent
  finish_reason : Option GFinishReason
deriving Repr

/-- `_GeminiUsageMetaData`: all four token counters treated as optional. -/
structure GUsageMetaData where
  prompt_token_count : Option Int
  candidates_token_count : Option Int
  total_token_count : Option Int
  cached_content_token_count : Option Int
deriving Repr, DecidableEq

/-- `_GeminiResponse`: the fields the adapter reads (`prompt_feedback` is
never read and is omitted). -/
structure GResponse where
  candidates : List GCandidate
  usage_metadata : GUsageMetaData
deriving Repr

/-! ## Non-streamed response processing -/

/-- `all_function_call_parts`: every part has the `function_call` key. -/
def all_function_call_parts (parts : List GPart) : Bool :=
  parts.all (fun p => match p with | .functionCall _ => true | _ => false)

/-- `all_text_parts`: every part has the `text` key. -/
def all_text_parts (parts : List GPart) : Bool :=
  parts.all (fun p => match p with | .text _ => true | _ => false)

def oneCandidateMsg : String := "Expected exactly one candidate in Gemini response"

def unsupportedPartsMsg : String :=
  "Unsupported response from Gemini, expected all parts to be function calls or text"

/-- `_extract_response_parts`: require exactly one candidate, then classify
its `content.parts` (the Python error message also interpolates the repr of
the offending parts; the static prefix stands for it here). -/
def extract_response_parts (response : GResponse) :
    Except Err (UEither (List GPart) (List GPart)) :=
  match response.candidates with
  | [candidate] =>
    let parts := candidate.content.parts
    if all_function_call_parts parts then .ok (.left parts)
    else if all_text_parts parts then .ok (.right parts)
    else .error (.unexpectedModelBehaviour unsupportedPartsMsg)
  | _ => .error (.unexpectedModelBehaviour oneCandidateMsg)

/-- `part['function_call']` on one part: KeyError unless it is a
function-call part. -/
def part_function_call (p : GPart) : Except Err GFunctionCall :=
  match p with
  | .functionCall fc => .ok fc
  | _ => .error (.pyError "KeyError: function_call")

/-- `part['text']` on one part: KeyError unless it is a text part. -/
def part_text (p : GPart) : Except Err String :=
  match p with
  | .text t => .ok t
  | _ => .error (.pyError "KeyError: text")

/-- Effectful map over a list (a Python `for` loop or comprehension whose
body may raise), propagating the first error. -/
def mapExcept (f : α → Except Err β) : List α → Except Err (List β)
  | [] => .ok []
  | x :: xs =>
    match f x with
    | .error e => .error e
    | .ok y =>
      match mapExcept f xs with
      | .error e => .error e
      | .ok ys => .ok (y :: ys)

/-- `_tool_call_from_parts`: one `ToolCall.from_object` per function-call
part, stamped with the given timestamp. -/
def tool_call_from_parts (parts : List GPart) (timestamp : Nat) :
    Except Err LLMToolCalls :=
  match mapExcept part_function_call parts with
  | .error e => .error e
  | .ok fcs => .ok ⟨fcs.map (fun fc => ToolCall.from_object fc.name fc.args), timestamp⟩

/-- `GeminiAgentModel._process_response` (`now` is the UTC timestamp the
constructed message receives). -/
def process_response (now : Nat) (response : GResponse) : Except Err LLMMessage :=
  match extract_response_parts response with
  | .error e => .error e
  | .ok (.left parts) =>
    match tool_call_from_parts parts now with
    | .error e => .error e
    | .ok tc => .ok (.toolCalls tc)
  | .ok (.right parts) =>
    match mapExcept part_text parts with
    | .error e => .error e
    | .ok texts => .ok (.response ⟨String.join texts, now⟩)

/-- Spec-side helper naming the calls a list of function-call parts denotes
(on a list that passes `all_function_call_parts` this is exactly one call per
part, in order). -/
def callsOfParts (parts : List GPart) : List ToolCall :=
  parts.filterMap (fun p =>
    match p with
    | .functionCall fc => some (ToolCall.from_object fc.name fc.args)
    | _ => none)

/-- Spec-side helper naming the concatenated text of a list of text parts. -/
def textOfParts (parts : List GPart) : String :=
  String.join (parts.filterMap (fun p =>
    match p with
    | .text t => some t
    | _ => none))

/-! ## Cost extraction -/

/-- `_metadata_as_cost`.  Note the walrus truthiness test: the details entry
is only recorded when `cached_content_token_count` is present AND nonzero. -/
def metadata_as_cost (metadata : GUsageMetaData) : Cost :=
  let details : List (String × Int) :=
    match metadata.cached_content_token_count with
    | some c => if c ≠ 0 then [("cached_content_token_count", c)] else []
    | none => []
  { request_tokens := some ((metadata.prompt_token_count).getD 0)
    response_tokens := some ((metadata.candidates_token_count).getD 0)
    total_tokens := some ((metadata.total_token_count).getD 0)
    details := details }

/-! ## Model construction (`GeminiModel.__init__`) -/

def apiKeyMsg : String :=
  "API key must be provided or set in the GEMINI_API_KEY environment variable"

/-- The state a successfully constructed `GeminiModel` stores (the HTTP
client object is outside the embedding). -/
structure GeminiModelState where
  model_name : String
  api_key : String
  url_template : String
deriving Repr, DecidableEq

def defaultUrlTemplate : String :=
  "https://generativelanguage.googleapis.com/v1beta/models/" ++
    "\x7bmodel\x7d:\x7bfunction\x7d"

/-- `GeminiModel.__init__`: `api_key` is the explicit argument (`none` when
omitted), `env_gemini_api_key` is `os.getenv('GEMINI_API_KEY')` (`none` when
the variable is unset).  The walrus truthiness test means a set-but-empty
environment variable also fails.  No network request is modelled because the
constructor performs none. -/
def geminiModelInit (model_name : String) (api_key : Option String)
    (env_gemini_api_key : Option String)
    (url_template : String := defaultUrlTemplate) : Except Err GeminiModelState :=
  match api_key with
  | some k => .ok ⟨model_name, k, url_template⟩
  | none =>
    match env_gemini_api_key with
    | some k => if k ≠ "" then .ok ⟨model_name, k, url_template⟩
                else .error (.userError apiKeyMsg)
    | none => .error (.userError apiKeyMsg)

/-! ## Request-side content building (`LLMToolCalls` to Gemini content) -/

def expectedArgsObjectMsg : String := "AssertionError: Expected ArgsObject"

/-- `_function_call_part_from_call`: asserts the call's args are an
`ArgsObject` (a lazily-parsed raw-JSON `args` trips the assertion). -/
def function_call_part_from_call (tool : ToolCall) : Except Err GPart :=
  match tool.args with
  | .argsObject o => .ok (.functionCall ⟨tool.tool_name, o⟩)
  | .argsJson _ => .error (.pyError expectedArgsObjectMsg)

/-- `_content_function_call`: one function-call part per call, role `model`. -/
def content_function_call (m : LLMToolCalls) : Except Err GContent :=
  match mapExcept function_call_part_from_call m.calls with
  | .error e => .error e
  | .ok parts => .ok ⟨.model, parts⟩

/-! ## Streamed response handling -/

def streamEndMsg : String := "Streamed response ended without content or tool calls"

def streamToolMsg : String :=
  "Streamed response with unexpected content, expected all parts to be function calls"

/-- The two streaming cursors `_process_streamed_response` can hand back,
each holding the byte buffer consumed so far and the not-yet-read chunks of
the stream (`GeminiStreamToolCallResponse` / `GeminiStreamTextResponse`). -/
inductive StreamCursor where
  | toolCalls (content : String) (rest : List String)
  | text (content : String) (rest : List String)
deriving Repr, DecidableEq

/-- The classification step at the end of `_process_streamed_response`:
`_extract_response_parts(start_response).is_left()` chooses the cursor. -/
def classify_start (content : String) (rest : List String) (start_response : GResponse) :
    Except Err StreamCursor :=
  match extract_response_parts start_response with
  | .error e => .error e
  | .ok either =>
    if either.is_left then .ok (.toolCalls content rest)
    else .ok (.text content rest)

/-- The loop condition: `last['candidates'] and last['candidates'][0]['content']['parts']`
(list truthiness on both). -/
def lastResponseHasParts (responses : List GResponse) : Bool :=
  match responses.getLast? with
  | some last =>
    match last.candidates with
    | c :: _ => !c.content.parts.isEmpty
    | [] => false
  | none => false

/-- `GeminiAgentModel._process_streamed_response`: the HTTP byte stream is
the list `chunks`; `parse` is the partial-tolerant JSON-array decode
`_gemini_streamed_response_ta.validate_json(..., partial mode)` of the
pydantic library, abstracted as a function of the buffer; `content` is the
buffer accumulated so far (initially `""`). -/
def process_streamed_response (parse : String → List GResponse) :
    List String → String → Except Err StreamCursor
  | [], _ => .error (.unexpectedModelBehaviour streamEndMsg)
  | chunk :: rest, content =>
    let content' := content ++ chunk
    let responses := parse content'
    if lastResponseHasParts responses then
      match responses.getLast? with
      | some last => classify_start content' rest last
      | none => process_streamed_response parse rest content'
    else
      process_streamed_response parse rest content'

/-- The buffer contents after chunk `i` (0-based) has been appended to an
initial buffer `content`. -/
def streamBuf (content : String) (chunks : List String) (i : Nat) : String :=
  match chunks, i with
  | [], _ => content
  | c :: _, 0 => content ++ c
  | c :: rest, j + 1 => streamBuf (content ++ c) rest j

/-- `GeminiStreamToolCallResponse.get`, inner loop: accumulate the parts of
every all-function-call response, silently skip a response with a truthy
`finish_reason`, and fail on any other response.  `r['candidates'][0]` is an
IndexError when a response has no candidates. -/
def stream_tool_collect : List GResponse → List GPart → Except Err (List GPart)
  | [], acc => .ok acc
  | r :: rest, acc =>
    match r.candidates with
    | [] => .error (.pyError "IndexError: candidates")
    | candidate :: _ =>
      let parts := candidate.content.parts
      if all_function_call_parts parts then
        stream_tool_collect rest (acc ++ parts)
      else if candidate.finish_reason.isNone then
        .error (.unexpectedModelBehaviour streamToolMsg)
      else
        stream_tool_collect rest acc

/-- `GeminiStreamToolCallResponse.get` as a function of the responses parsed
so far (`self._responses()`) and of the cursor's timestamp. -/
def stream_tool_get (responses : List GResponse) (timestamp : Nat) :
    Except Err LLMToolCalls :=
  match stream_tool_collect responses [] with
  | .error e => .error e
  | .ok combined_parts => tool_call_from_parts combined_parts timestamp

/-! ## The JSON-schema simplifier (`_GeminiJsonSchema`)

The in-place dictionary mutation of the Python class becomes functional
state passing: every step returns the rewritten node together with the
(possibly rewritten) definitions table `self.defs`.  Fuel is threaded
through every call; `Err.outOfFuel` at every fuel means the Python code
recurses without bound.

Python peculiarities reproduced faithfully:
* `schema.pop('$ref')` happens unconditionally; only a truthy value takes
  the `$ref` branch;
* in `_simplify` the loop `for schema in any_of:` rebinds the name
  `schema`, so after a non-empty `anyOf` the `type` dispatch and the
  `_object`/`_array` call apply to the LAST `anyOf` member (already
  simplified once by the loop), not to the node itself;
* after inlining a `$ref`, `_simplify` returns without processing the
  merged node any further;
* simplifying a definition body mutates the entry inside `self.defs`
  (modelled by writing the simplified body back into the table).  The
  Python update also aliases the inlined body with the table entry; the
  value semantics used here separates them, which is observationally
  equivalent because re-simplifying an already-simplified body only
  repeats no-op key pops. -/

def recursiveRefsMsg : String := "Recursive `$ref`s in JSON Schema are not supported by Gemini"

def additionalPropsMsg : String := "Additional properties in JSON Schema are not supported by Gemini"

/-- Remove a leading character-list pattern, if present (a
kernel-computable prefix test). -/
def dropPat : List Char → List Char → Option (List Char)
  | [], cs => some cs
  | _ :: _, [] => none
  | p :: ps, c :: cs => if c = p then dropPat ps cs else none

/-- `re.sub(r'^#/\$defs/', '', ref)`: strip one leading `#/$defs/`. -/
def stripDefsKey (ref : String) : String :=
  match dropPat "#/$defs/".data ref.data with
  | some rest => ⟨rest⟩
  | none => ref

/-- `self.defs[key]`: KeyError when absent, TypeError when the table is not
a dict. -/
def defsGet (defs : JVal) (key : String) : Except Err JVal :=
  match defs with
  | .obj fields =>
    match dGet fields key with
    | some v => .ok v
    | none => .error (.pyError "KeyError: definition")
  | _ => .error (.pyError "TypeError: definitions table")

/-- Write a (simplified) definition body back into the table. -/
def defsSet (defs : JVal) (key : String) (v : JVal) : JVal :=
  match defs with
  | .obj fields => .obj (dSet fields key v)
  | other => other

mutual

/-- `_GeminiJsonSchema._simplify(schema, refs_stack)`, threading `self.defs`. -/
def simplifyNode : Nat → JVal → JVal → List String → Except Err (JVal × JVal)
  | 0, _, _, _ => .error .outOfFuel
  | n + 1, defs, .obj fields0, refs_stack =>
    let fields1 := dRemove fields0 "title"
    let fields2 := dRemove fields1 "default"
    let refVal := dGet fields2 "$ref"
    let fields3 := dRemove fields2 "$ref"
    if truthyOpt refVal then
      match refVal with
      | some (.str ref) =>
        let key := stripDefsKey ref
        if key ∈ refs_stack then .error (.userError recursiveRefsMsg)
        else
          match defsGet defs key with
          | .error e => .error e
          | .ok schemaDef =>
            match simplifyNode n defs schemaDef (refs_stack ++ [key]) with
            | .error e => .error e
            | .ok (schemaDef', defs') =>
              match schemaDef' with
              | .obj defFields =>
                .ok (.obj (dUpdate fields3 defFields), defsSet defs' key (.obj defFields))
              | _ => .error (.pyError "TypeError: update")
      | _ => .error (.pyError "TypeError: re.sub")
    else
      let anyOfVal := dGet fields3 "anyOf"
      if truthyOpt anyOfVal then
        match anyOfVal with
        | some (.arr elems) =>
          match simplifyList n defs elems refs_stack with
          | .error e => .error e
          | .ok (elems', defs') =>
            match elems'.getLast? with
            | some lastElem =>
              match typeDispatch n defs' lastElem refs_stack with
              | .error e => .error e
              | .ok (lastElem', defs'') =>
                .ok (.obj (dSet fields3 "anyOf" (.arr (elems'.dropLast ++ [lastElem']))),
                     defs'')
            | none => .ok (.obj fields3, defs')
        | _ => .error (.pyError "TypeError: iterating anyOf")
      else
        typeDispatch n defs (.obj fields3) refs_stack
  | _ + 1, _, _, _ => .error (.pyError "AttributeError: pop")
termination_by structural n _ _ _ => n

/-- The `type_` dispatch at the bottom of `_simplify` (applied to the node
itself, or — after a non-empty `anyOf` — to the rebound loop variable). -/
def typeDispatch : Nat → JVal → JVal → List String → Except Err (JVal × JVal)
  | 0, _, _, _ => .error .outOfFuel
  | n + 1, defs, .obj fields, refs_stack =>
    match dGet fields "type" with
    | some (.str "object") => simplifyObject n defs (.obj fields) refs_stack
    | some (.str "array") => simplifyArray n defs (.obj fields) refs_stack
    | _ => .ok (.obj fields, defs)
  | _ + 1, _, _, _ => .error (.pyError "AttributeError: get")
termination_by structural n _ _ _ => n

/-- The `for schema in any_of: self._simplify(schema, refs_stack)` loop. -/
def simplifyList : Nat → JVal → List JVal → List String → Except Err (List JVal × JVal)
  | 0, _, _, _ => .error .outOfFuel
  | _ + 1, defs, [], _ => .ok ([], defs)
  | n + 1, defs, schema :: rest, refs_stack =>
    match simplifyNode n defs schema refs_stack with
    | .error e => .error e
    | .ok (schema', defs') =>
      match simplifyList n defs' rest refs_stack with
      | .error e => .error e
      | .ok (rest', defs'') => .ok (schema' :: rest', defs'')
termination_by structural n _ _ _ => n

/-- `_GeminiJsonSchema._object`. -/
def simplifyObject : Nat → JVal → JVal → List String → Except Err (JVal × JVal)
  | 0, _, _, _ => .error .outOfFuel
  | n + 1, defs, .obj fields, refs_stack =>
    let adProps := dGet fields "additionalProperties"
    let fields1 := dRemove fields "additionalProperties"
    if truthyOpt adProps then .error (.userError additionalPropsMsg)
    else
      let propsVal := dGet fields1 "properties"
      if truthyOpt propsVal then
        match propsVal with
        | some (.obj props) =>
          match simplifyProps n defs props refs_stack with
          | .error e => .error e
          | .ok (props', defs') =>
            .ok (.obj (dSet fields1 "properties" (.obj props')), defs')
        | _ => .error (.pyError "AttributeError: values")
      else .ok (.obj fields1, defs)
  | _ + 1, _, _, _ => .error (.pyError "AttributeError: pop")
termination_by structural n _ _ _ => n

/-- The `for value in properties.values(): self._simplify(value, refs_stack)`
loop of `_object`. -/
def simplifyProps : Nat → JVal → JDict → List String → Except Err (JDict × JVal)
  | 0, _, _, _ => .error .outOfFuel
  | _ + 1, defs, [], _ => .ok ([], defs)
  | n + 1, defs, (key, value) :: rest, refs_stack =>
    match simplifyNode n defs value refs_stack with
    | .error e => .error e
    | .ok (value', defs') =>
      match simplifyProps n defs' rest refs_stack with
      | .error e => .error e
      | .ok (rest', defs'') => .ok ((key, value') :: rest', defs'')
termination_by structural n _ _ _ => n

/-- `_GeminiJsonSchema._array`. -/
def simplifyArray : Nat → JVal → JVal → List String → Except Err (JVal × JVal)
  | 0, _, _, _ => .error .outOfFuel
  | n + 1, defs, .obj fields, refs_stack =>
    let prefixVal := dGet fields "prefixItems"
    if truthyOpt prefixVal then
      match prefixVal with
      | some (.arr items0) =>
        match simplifyList n defs items0 refs_stack with
        | .error e => .error e
        | .ok (items0', defs') =>
          arrayItems n defs' (dSet fields "prefixItems" (.arr items0')) refs_stack
      | _ => .error (.pyError "TypeError: iterating prefixItems")
    else arrayItems n defs fields refs_stack
  | _ + 1, _, _, _ => .error (.pyError "AttributeError: get")
termination_by structural n _ _ _ => n

/-- The `items` half of `_array`. -/
def arrayItems : Nat → JVal → JDict → List String → Except Err (JVal × JVal)
  | 0, _, _, _ => .error .outOfFuel
  | n + 1, defs, fields, refs_stack =>
    let itemsVal := dGet fields "items"
    if truthyOpt itemsVal then
      match itemsVal with
      | some itemsSchema =>
        match simplifyNode n defs itemsSchema refs_stack with
        | .error e => .error e
        | .ok (items', defs') => .ok (.obj (dSet fields "items" items'), defs')
      | none => .ok (.obj fields, defs)
    else .ok (.obj fields, defs)
termination_by structural n _ _ _ => n

end

/-- `_GeminiJsonSchema(schema).simplify()`: split `$defs` off a (deep copy
of) the schema, run `_simplify` on the rest with an empty refs chain, and
return the rewritten schema. -/
def GeminiJsonSchema.simplify (fuel : Nat) (schema : JVal) : Except Err JVal :=
  match schema with
  | .obj fields =>
    let defs := (dGet fields "$defs").getD (.obj [])
    match simplifyNode fuel defs (.obj (dRemove fields "$defs")) [] with
    | .error e => .error e
    | .ok (schema', _) => .ok schema'
  | _ => .error (.pyError "AttributeError: pop")

/-! ## Shared helper lemmas -/

/-- On an all-function-call part list, per-part extraction succeeds and
yields one function call per part, in order. -/
theorem mapExcept_part_function_call (parts : List GPart)
    (h : all_function_call_parts parts = true) :
    mapExcept part_function_call parts =
      .ok (parts.filterMap (fun p =>
        match p with
        | .functionCall fc => some fc
        | _ => none)) := by
  induction parts with
  | nil => rfl
  | cons p rest ih =>
    match p with
    | .functionCall fc =>
      have hr : all_function_call_parts rest = true := by
        simpa [all_function_call_parts] using h
      simp [mapExcept, part_function_call, ih hr]
    | .text t => simp [all_function_call_parts] at h
    | .functionResponse a b => simp [all_function_call_parts] at h

/-- On an all-function-call part list, `_tool_call_from_parts` succeeds and
produces exactly the calls the parts denote. -/
theorem tool_call_from_parts_all_fc (parts : List GPart) (ts : Nat)
    (h : all_function_call_parts parts = true) :
    tool_call_from_parts parts ts = .ok ⟨callsOfParts parts, ts⟩ := by
  rw [tool_call_from_parts, mapExcept_part_function_call parts h]
  have hl : ∀ ps : List GPart,
      (ps.filterMap (fun p =>
        match p with
        | .functionCall fc => some fc
        | _ => none)).map (fun fc => ToolCall.from_object fc.name fc.args) =
      callsOfParts ps := by
    intro ps
    induction ps with
    | nil => rfl
    | cons p rest ih =>
      match p with
      | .functionCall fc => simpa [callsOfParts] using ih
      | .text t => simpa [callsOfParts] using ih
      | .functionResponse a b => simpa [callsOfParts] using ih
  simp [hl]

/-- On an all-text part list, per-part extraction succeeds and yields each
part's text, in order. -/
theorem mapExcept_part_text (parts : List GPart)
    (h : all_text_parts parts = true) :
    mapExcept part_text parts =
      .ok (parts.filterMap (fun p =>
        match p with
        | .text t => some t
        | _ => none)) := by
  induction parts with
  | nil => rfl
  | cons p rest ih =>
    match p with
    | .text t =>
      have hr : all_text_parts rest = true := by
        simpa [all_text_parts] using h
      simp [mapExcept, part_text, ih hr]
    | .functionCall fc => simp [all_text_parts] at h
    | .functionResponse a b => simp [all_text_parts] at h

/-- Helper: full case analysis of `_process_response`, shared by the claims
about non-streamed response processing. -/
theorem process_response_cases (now : Nat) (response : GResponse) :
    (response.candidates.length ≠ 1 →
      process_response now response = .error (.unexpectedModelBehaviour oneCandidateMsg)) ∧
    (∀ candidate, response.candidates = [candidate] →
      (all_function_call_parts candidate.content.parts = true →
        process_response now response =
          .ok (.toolCalls ⟨callsOfParts candidate.content.parts, now⟩)) ∧
      (all_function_call_parts candidate.content.parts = false →
        all_text_parts candidate.content.parts = true →
        process_response now response =
          .ok (.response ⟨textOfParts candidate.content.parts, now⟩)) ∧
      (all_function_call_parts candidate.content.parts = false →
        all_text_parts candidate.content.parts = false →
        process_response now response =
          .error (.unexpectedModelBehaviour unsupportedPartsMsg))) := by
  constructor
  · intro hlen
    match hc : response.candidates with
    | [] => simp [process_response, extract_response_parts, hc]
    | [c] => exact absurd (by simp [hc]) hlen
    | a :: b :: rest => simp [process_response, extract_response_parts, hc]
  · intro candidate hc
    refine ⟨?_, ?_, ?_⟩
    · intro hfc
      simp [process_response, extract_response_parts, hc, hfc,
        tool_call_from_parts_all_fc candidate.content.parts now hfc]
    · intro hfc htxt
      simp [process_response, extract_response_parts, hc, hfc, htxt,
        mapExcept_part_text candidate.content.parts htxt, textOfParts]
    · intro hfc htxt
      simp [process_response, extract_response_parts, hc, hfc, htxt]

/-! ## C1 -/

/-- C1: for a non-streamed Gemini response, `_process_response` fails with an
unexpected-model-behaviour error unless there is exactly one candidate;
with one candidate it classifies `content.parts` in the order the code (and
the claim) lists the cases: if every part is a function-call part the result
is the `LLMToolCalls` built from those calls; otherwise, if every part is a
text part, the result is an `LLMResponse` concatenating the texts in order;
otherwise (mixed kinds) it fails with an unexpected-model-behaviour error.
(For an empty part list both "every part" tests hold vacuously and the
function-call case, checked first, wins — that boundary is claim C10.) -/
theorem c1_process_response_classification (now : Nat) (response : GResponse) :
    (response.candidates.length ≠ 1 →
      process_response now response = .error (.unexpectedModelBehaviour oneCandidateMsg)) ∧
    (∀ candidate, response.candidates = [candidate] →
      (all_function_call_parts candidate.content.parts = true →
        process_response now response =
          .ok (.toolCalls ⟨callsOfParts candidate.content.parts, now⟩)) ∧
      (all_function_call_parts candidate.content.parts = false →
        all_text_parts candidate.content.parts = true →
        process_response now response =
          .ok (.response ⟨textOfParts candidate.content.parts, now⟩)) ∧
      (all_function_call_parts candidate.content.parts = false →
        all_text_parts candidate.content.parts = false →
        process_response now response =
          .error (.unexpectedModelBehaviour unsupportedPartsMsg))) :=
  process_response_cases now response

def mdNone : GUsageMetaData := ⟨none, none, none, none⟩

def respTwoCandidates : GResponse :=
  ⟨[⟨⟨.model, [.text "a"]⟩, none⟩, ⟨⟨.model, [.text "b"]⟩, none⟩], mdNone⟩

def respOneCall : GResponse :=
  ⟨[⟨⟨.model, [.functionCall ⟨"f", [("x", .num 1)]⟩]⟩, none⟩], mdNone⟩

def respTwoTexts : GResponse :=
  ⟨[⟨⟨.model, [.text "a", .text "b"]⟩, none⟩], mdNone⟩

def respMixed : GResponse :=
  ⟨[⟨⟨.model, [.text "a", .functionCall ⟨"f", []⟩]⟩, none⟩], mdNone⟩

/-- Witness for C1 at concrete responses: two candidates fail, an
all-function-call candidate yields tool calls, an all-text candidate yields
the concatenated text, and mixed parts fail. -/
theorem c1_witness :
    process_response 0 respTwoCandidates =
      .error (.unexpectedModelBehaviour oneCandidateMsg) ∧
    process_response 0 respOneCall =
      .ok (.toolCalls ⟨[ToolCall.from_object "f" [("x", .num 1)]], 0⟩) ∧
    process_response 0 respTwoTexts = .ok (.response ⟨"ab", 0⟩) ∧
    process_response 0 respMixed =
      .error (.unexpectedModelBehaviour unsupportedPartsMsg) := by
  refine ⟨?_, ?_, ?_, ?_⟩
  · exact (c1_process_response_classification 0 respTwoCandidates).1 (by decide)
  · exact ((c1_process_response_classification 0 respOneCall).2 _ rfl).1 rfl
  · exact (((c1_process_response_classification 0 respTwoTexts).2 _ rfl).2.1 rfl rfl)
  · exact (((c1_process_response_classification 0 respMixed).2 _ rfl).2.2 rfl rfl)

/-! ## C10 -/

/-- C10: a non-streamed response with exactly one candidate whose part list
is empty resolves to an `LLMToolCalls` with an empty calls list (the empty
list vacuously passes the all-function-call-parts test, which is checked
first), not an error and not an `LLMResponse`. -/
theorem c10_empty_parts_tool_calls (now : Nat) (response : GResponse)
    (candidate : GCandidate) (hc : response.candidates = [candidate])
    (hp : candidate.content.parts = []) :
    process_response now response = .ok (.toolCalls ⟨[], now⟩) := by
  have hfc : all_function_call_parts candidate.content.parts = true := by
    rw [hp]; rfl
  have := ((process_response_cases now response).2 candidate hc).1 hfc
  rwa [hp] at this

def respEmptyParts : GResponse := ⟨[⟨⟨.model, []⟩, none⟩], mdNone⟩

/-- Witness for C10 at a concrete one-candidate, zero-part response. -/
theorem c10_witness :
    process_response 0 respEmptyParts = .ok (.toolCalls ⟨[], 0⟩) :=
  c10_empty_parts_tool_calls 0 respEmptyParts ⟨⟨.model, []⟩, none⟩ rfl rfl

/-! ## C6 -/

/-- C6 (amended): the extracted Cost takes `request_tokens` from
`promptTokenCount` (0 when absent), `response_tokens` from
`candidatesTokenCount` (0 when absent), `total_tokens` from
`totalTokenCount` (0 when absent), and `details` records
`cached_content_token_count` exactly when `cachedContentTokenCount` is
present with a nonzero value — a present-but-zero count, being falsy,
leaves `details` empty. -/
theorem c6_metadata_as_cost_fields (metadata : GUsageMetaData) :
    (metadata_as_cost metadata).request_tokens =
      some (metadata.prompt_token_count.getD 0) ∧
    (metadata_as_cost metadata).response_tokens =
      some (metadata.candidates_token_count.getD 0) ∧
    (metadata_as_cost metadata).total_tokens =
      some (metadata.total_token_count.getD 0) ∧
    (metadata_as_cost metadata).details =
      (if metadata.cached_content_token_count.getD 0 ≠ 0 then
        [("cached_content_token_count", metadata.cached_content_token_count.getD 0)]
      else []) := by
  refine ⟨rfl, rfl, rfl, ?_⟩
  match h : metadata.cached_content_token_count with
  | none => simp [metadata_as_cost, h]
  | some c =>
    by_cases hc : c = 0
    · simp [metadata_as_cost, h, hc]
    · simp [metadata_as_cost, h, hc]

def mdCachedZero : GUsageMetaData := ⟨some 5, some 2, some 7, some 0⟩

/-- Counterexample to C6 as stated: with `cachedContentTokenCount` present
and equal to 0, the code leaves `details` empty rather than mapping
"cached_content_token_count" to 0. -/
theorem c6_counterexample :
    mdCachedZero.cached_content_token_count = some 0 ∧
    (metadata_as_cost mdCachedZero).details = [] ∧
    (metadata_as_cost mdCachedZero).details ≠ [("cached_content_token_count", 0)] := by
  refine ⟨rfl, rfl, ?_⟩
  decide

/-! ## C7 -/

/-- C7: constructing a `GeminiModel` with no explicit api_key and no
`GEMINI_API_KEY` environment variable fails at construction time with a
configuration (`UserError`) error, and no network request is involved
(the embedded constructor has no request effect at all); an explicit key is
stored and takes precedence over the environment; with no explicit key a
non-empty environment key is stored. -/
theorem c7_gemini_model_init (name : String) (api_key env_key : Option String) :
    (api_key = none → env_key = none →
      geminiModelInit name api_key env_key = .error (.userError apiKeyMsg)) ∧
    (∀ k, api_key = some k →
      geminiModelInit name api_key env_key = .ok ⟨name, k, defaultUrlTemplate⟩) ∧
    (∀ k, api_key = none → env_key = some k → k ≠ "" →
      geminiModelInit name api_key env_key = .ok ⟨name, k, defaultUrlTemplate⟩) := by
  refine ⟨?_, ?_, ?_⟩
  · intro ha he; subst ha; subst he; rfl
  · intro k ha; subst ha; rfl
  · intro k ha he hk; subst ha; subst he; simp [geminiModelInit, hk]

/-- Witness for C7: no key from either source errors; an explicit key wins
over the environment; an environment key is used when no explicit one is
given. -/
theorem c7_witness :
    geminiModelInit "gemini-1.5-flash" none none = .error (.userError apiKeyMsg) ∧
    geminiModelInit "gemini-1.5-flash" (some "k1") (some "k2") =
      .ok ⟨"gemini-1.5-flash", "k1", defaultUrlTemplate⟩ ∧
    geminiModelInit "gemini-1.5-flash" none (some "k2") =
      .ok ⟨"gemini-1.5-flash", "k2", defaultUrlTemplate⟩ := by
  refine ⟨?_, ?_, ?_⟩
  · exact (c7_gemini_model_init "gemini-1.5-flash" none none).1 rfl rfl
  · exact (c7_gemini_model_init "gemini-1.5-flash" (some "k1") (some "k2")).2.1 "k1" rfl
  · exact (c7_gemini_model_init "gemini-1.5-flash" none (some "k2")).2.2 "k2" rfl rfl
      (by decide)

/-! ## C9 -/

/-- Spec-side helper: the Gemini part each structured-args call denotes. -/
def functionCallParts (calls : List ToolCall) : List GPart :=
  calls.filterMap (fun c =>
    match c.args with
    | .argsObject o => some (.functionCall ⟨c.tool_name, o⟩)
    | .argsJson _ => none)

/-- C9: building the Gemini content for an `LLMToolCalls` message succeeds
exactly when every call carries structured-object args: with all
`ArgsObject` args it yields a role-`model` content with one function-call
part per call; any call whose args came from the raw-JSON constructor trips
the assertion in `_function_call_part_from_call`. -/
theorem c9_content_function_call (m : LLMToolCalls) :
    ((∀ c ∈ m.calls, ∃ o, c.args = .argsObject o) →
      content_function_call m = .ok ⟨.model, functionCallParts m.calls⟩) ∧
    ((∃ c ∈ m.calls, ∃ s, c.args = .argsJson s) →
      content_function_call m = .error (.pyError expectedArgsObjectMsg)) := by
  constructor
  · intro hall
    have hmap : ∀ calls : List ToolCall, (∀ c ∈ calls, ∃ o, c.args = .argsObject o) →
        mapExcept function_call_part_from_call calls = .ok (functionCallParts calls) := by
      intro calls hcalls
      induction calls with
      | nil => rfl
      | cons c rest ih =>
        obtain ⟨o, ho⟩ := hcalls c (List.mem_cons_self c rest)
        have hrest := ih (fun c' hc' => hcalls c' (List.mem_cons_of_mem c hc'))
        simp [mapExcept, function_call_part_from_call, ho, hrest, functionCallParts]
    rw [content_function_call, hmap m.calls hall]
  · intro hbad
    have hmap : ∀ calls : List ToolCall, (∃ c ∈ calls, ∃ s, c.args = .argsJson s) →
        mapExcept function_call_part_from_call calls =
          .error (.pyError expectedArgsObjectMsg) := by
      intro calls hcalls
      induction calls with
      | nil => simp at hcalls
      | cons c rest ih =>
        match harg : c.args with
        | .argsJson s =>
          simp [mapExcept, function_call_part_from_call, harg]
        | .argsObject o =>
          have hbadrest : ∃ c' ∈ rest, ∃ s, c'.args = .argsJson s := by
            obtain ⟨c', hc', s, hs⟩ := hcalls
            rcases List.mem_cons.mp hc' with hceq | hmem
            · subst hceq; rw [harg] at hs; cases hs
            · exact ⟨c', hmem, s, hs⟩
          simp [mapExcept, function_call_part_from_call, harg, ih hbadrest]
    rw [content_function_call, hmap m.calls hbad]

def objectCall : ToolCall := ToolCall.from_object "f" [("x", .num 1)]

def jsonCall : ToolCall := ⟨"g", .argsJson "\x7b\"y\": 2\x7d", none⟩

/-- Witness for C9: an all-`ArgsObject` message serializes; a message
containing a raw-JSON call trips the assertion. -/
theorem c9_witness :
    content_function_call ⟨[objectCall], 0⟩ =
      .ok ⟨.model, [.functionCall ⟨"f", [("x", .num 1)]⟩]⟩ ∧
    content_function_call ⟨[objectCall, jsonCall], 0⟩ =
      .error (.pyError expectedArgsObjectMsg) := by
  constructor
  · exact (c9_content_function_call ⟨[objectCall], 0⟩).1
      (by intro c hc; simp at hc; subst hc; exact ⟨[("x", .num 1)], rfl⟩)
  · exact (c9_content_function_call ⟨[objectCall, jsonCall], 0⟩).2
      ⟨jsonCall, by simp, "\x7b\"y\": 2\x7d", rfl⟩

/-! ## C3 -/

/-- C3 (amended): when the simplifier processes an object-typed node,
`_object` raises the fatal "additional properties" user error exactly for a
truthy `additionalProperties` value (such as `true` or a non-empty schema);
a falsy value — in particular `additionalProperties: false` — is silently
popped, and (when there is also no truthy `properties`) the node is returned
with the keyword removed and no error.  Nodes sitting in positions the
simplifier never visits (for example below `allOf`) are not checked at all;
see the counterexample. -/
theorem c3_object_additional_properties (n : Nat) (defs : JVal) (fields : JDict)
    (refs_stack : List String) :
    (truthyOpt (dGet fields "additionalProperties") = true →
      simplifyObject (n + 1) defs (.obj fields) refs_stack =
        .error (.userError additionalPropsMsg)) ∧
    (truthyOpt (dGet fields "additionalProperties") = false →
      truthyOpt (dGet (dRemove fields "additionalProperties") "properties") = false →
      simplifyObject (n + 1) defs (.obj fields) refs_stack =
        .ok (.obj (dRemove fields "additionalProperties"), defs)) := by
  constructor
  · intro htr
    simp [simplifyObject, htr]
  · intro htr hpr
    simp [simplifyObject, htr, hpr]

def adFalseSchema : JVal :=
  .obj [("type", .str "object"), ("additionalProperties", .bool false)]

def adTrueUnderAllOf : JVal :=
  .obj [("allOf", .arr
    [.obj [("type", .str "object"), ("additionalProperties", .bool true)]])]

/-- Counterexample to C3 as stated: an object node carrying
`additionalProperties: false` simplifies successfully (the keyword is
silently stripped) instead of failing; and even a truthy
`additionalProperties` hidden under an unvisited keyword (`allOf`) passes
through untouched. -/
theorem c3_counterexample :
    GeminiJsonSchema.simplify 20 adFalseSchema = .ok (.obj [("type", .str "object")]) ∧
    GeminiJsonSchema.simplify 20 adTrueUnderAllOf = .ok adTrueUnderAllOf := by
  exact ⟨rfl, rfl⟩

/-- Witness for C3's amended theorem at concrete inputs: a truthy
`additionalProperties` errors, `additionalProperties: false` with no
properties is stripped without error. -/
theorem c3_witness :
    simplifyObject 5 (.obj []) (.obj [("type", .str "object"),
        ("additionalProperties", .bool true)]) [] =
      .error (.userError additionalPropsMsg) ∧
    simplifyObject 5 (.obj []) (.obj [("type", .str "object"),
        ("additionalProperties", .bool false)]) [] =
      .ok (.obj [("type", .str "object")], .obj []) := by
  constructor
  · exact (c3_object_additional_properties 4 (.obj []) [("type", .str "object"),
      ("additionalProperties", .bool true)] []).1 rfl
  · exact (c3_object_additional_properties 4 (.obj []) [("type", .str "object"),
      ("additionalProperties", .bool false)] []).2 rfl rfl

/-! ## C5 -/

/-- The parts of a response's first candidate (what
`r['candidates'][0]['content']['parts']` reads when it does not raise). -/
def firstCandidateParts (r : GResponse) : List GPart :=
  match r.candidates with
  | c :: _ => c.content.parts
  | [] => []

/-- The finish reason of a response's first candidate. -/
def firstCandidateFinish (r : GResponse) : Option GFinishReason :=
  match r.candidates with
  | c :: _ => c.finish_reason
  | [] => none

/-- The parts `GeminiStreamToolCallResponse.get` accumulates: those of every
all-function-call response, in response order. -/
def collectedParts (responses : List GResponse) : List GPart :=
  responses.flatMap (fun r =>
    if all_function_call_parts (firstCandidateParts r) then firstCandidateParts r
    else [])

/-- Helper: the collect loop of `get`, with an arbitrary accumulator. -/
theorem stream_tool_collect_ok (responses : List GResponse)
    (hne : ∀ r ∈ responses, r.candidates ≠ [])
    (hgood : ∀ r ∈ responses,
      all_function_call_parts (firstCandidateParts r) = true ∨
        (firstCandidateFinish r).isSome = true) :
    ∀ acc, stream_tool_collect responses acc = .ok (acc ++ collectedParts responses) := by
  induction responses with
  | nil => intro acc; simp [stream_tool_collect, collectedParts]
  | cons r rest ih =>
    intro acc
    have hner := hne r (List.mem_cons_self r rest)
    match hr : r.candidates with
    | [] => exact absurd hr hner
    | candidate :: others =>
      have hgr := hgood r (List.mem_cons_self r rest)
      have ihr := ih (fun x hx => hne x (List.mem_cons_of_mem r hx))
        (fun x hx => hgood x (List.mem_cons_of_mem r hx))
      by_cases hfc : all_function_call_parts candidate.content.parts = true
      · simp [stream_tool_collect, hr, hfc, ihr, collectedParts,
          firstCandidateParts]
      · have hfin : candidate.finish_reason.isSome = true := by
          rcases hgr with hg | hg
          · rw [firstCandidateParts, hr] at hg; exact absurd hg hfc
          · rwa [firstCandidateFinish, hr] at hg
        have hnone : candidate.finish_reason.isNone = false := by
          match hv : candidate.finish_reason with
          | some v => rfl
          | none => rw [hv] at hfin; cases hfin
        simp only [Bool.not_eq_true] at hfc
        simp [stream_tool_collect, hr, hfc, hnone, ihr, collectedParts,
          firstCandidateParts]

/-- Helper: the collect loop fails on the first response that is neither
all-function-call nor finish-reason-bearing. -/
theorem stream_tool_collect_err (responses : List GResponse)
    (hne : ∀ r ∈ responses, r.candidates ≠ [])
    (hbad : ∃ r ∈ responses,
      all_function_call_parts (firstCandidateParts r) = false ∧
        (firstCandidateFinish r).isNone = true) :
    ∀ acc, stream_tool_collect responses acc =
      .error (.unexpectedModelBehaviour streamToolMsg) := by
  induction responses with
  | nil => simp at hbad
  | cons r rest ih =>
    intro acc
    have hner := hne r (List.mem_cons_self r rest)
    match hr : r.candidates with
    | [] => exact absurd hr hner
    | candidate :: others =>
      by_cases hfc : all_function_call_parts candidate.content.parts = true
      · have hbadrest : ∃ x ∈ rest,
            all_function_call_parts (firstCandidateParts x) = false ∧
              (firstCandidateFinish x).isNone = true := by
          obtain ⟨x, hx, hxfc, hxfin⟩ := hbad
          rcases List.mem_cons.mp hx with hxeq | hmem
          · subst hxeq
            rw [firstCandidateParts, hr] at hxfc
            rw [hfc] at hxfc; cases hxfc
          · exact ⟨x, hmem, hxfc, hxfin⟩
        have ihr := ih (fun x hx => hne x (List.mem_cons_of_mem r hx)) hbadrest
        simp [stream_tool_collect, hr, hfc, ihr]
      · by_cases hfin : candidate.finish_reason.isNone = true
        · simp only [Bool.not_eq_true] at hfc
          simp [stream_tool_collect, hr, hfc, hfin]
        · have hbadrest : ∃ x ∈ rest,
              all_function_call_parts (firstCandidateParts x) = false ∧
                (firstCandidateFinish x).isNone = true := by
            obtain ⟨x, hx, hxfc, hxfin⟩ := hbad
            rcases List.mem_cons.mp hx with hxeq | hmem
            · subst hxeq
              rw [firstCandidateFinish, hr] at hxfin
              exact absurd hxfin hfin
            · exact ⟨x, hmem, hxfc, hxfin⟩
          have ihr := ih (fun x hx => hne x (List.mem_cons_of_mem r hx)) hbadrest
          simp only [Bool.not_eq_true] at hfc hfin
          simp [stream_tool_collect, hr, hfc, hfin, ihr]

/-- Helper: `all_function_call_parts` distributes over append. -/
theorem all_function_call_parts_append (a b : List GPart) :
    all_function_call_parts (a ++ b) =
      (all_function_call_parts a && all_function_call_parts b) := by
  simp [all_function_call_parts, List.all_append]

/-- Helper: collected parts always pass the all-function-call test. -/
theorem collectedParts_all_fc (responses : List GResponse) :
    all_function_call_parts (collectedParts responses) = true := by
  induction responses with
  | nil => rfl
  | cons r rest ih =>
    have hstep : collectedParts (r :: rest) =
        (if all_function_call_parts (firstCandidateParts r) then firstCandidateParts r
         else []) ++ collectedParts rest := by
      rw [collectedParts, collectedParts, List.flatMap_cons]
    rw [hstep, all_function_call_parts_append]
    by_cases hfc : all_function_call_parts (firstCandidateParts r) = true
    · rw [if_pos hfc, hfc, ih]; rfl
    · simp only [Bool.not_eq_true] at hfc
      rw [if_neg (by simp [hfc]), ih]; rfl

/-- C5 (amended): for every cursor state whose parsed responses all have at
least one candidate, `get` resolves as follows: if every response is either
all-function-call (accumulated) or carries a truthy finish reason — in the
latter case it is skipped REGARDLESS of its parts, including non-empty text
parts — the result is the `LLMToolCalls` built from all accumulated
function-call parts in response order; a response with no finish reason and
not-all-function-call parts is a fatal unexpected-model-behaviour error. -/
theorem c5_stream_tool_get (responses : List GResponse) (timestamp : Nat)
    (hne : ∀ r ∈ responses, r.candidates ≠ []) :
    ((∀ r ∈ responses,
        all_function_call_parts (firstCandidateParts r) = true ∨
          (firstCandidateFinish r).isSome = true) →
      stream_tool_get responses timestamp =
        .ok ⟨callsOfParts (collectedParts responses), timestamp⟩) ∧
    ((∃ r ∈ responses,
        all_function_call_parts (firstCandidateParts r) = false ∧
          (firstCandidateFinish r).isNone = true) →
      stream_tool_get responses timestamp =
        .error (.unexpectedModelBehaviour streamToolMsg)) := by
  constructor
  · intro hgood
    rw [stream_tool_get, stream_tool_collect_ok responses hne hgood []]
    simpa using tool_call_from_parts_all_fc (collectedParts responses) timestamp
      (collectedParts_all_fc responses)
  · intro hbad
    rw [stream_tool_get, stream_tool_collect_err responses hne hbad []]

def finishWithTextResponse : GResponse :=
  ⟨[⟨⟨.model, [.text "tail"]⟩, some .STOP⟩], mdNone⟩

/-- Counterexample to C5 as stated: a response with an explicit finish
reason AND non-empty (text, hence non-function-call) parts does NOT cause a
fatal error — `get` silently skips it and resolves to an empty
`LLMToolCalls`. -/
theorem c5_counterexample :
    (firstCandidateFinish finishWithTextResponse).isSome = true ∧
    firstCandidateParts finishWithTextResponse = [.text "tail"] ∧
    all_function_call_parts (firstCandidateParts finishWithTextResponse) = false ∧
    stream_tool_get [finishWithTextResponse] 0 = .ok ⟨[], 0⟩ := by
  exact ⟨rfl, rfl, rfl, rfl⟩

def fcStreamResponse : GResponse :=
  ⟨[⟨⟨.model, [.functionCall ⟨"f", [("x", .num 1)]⟩]⟩, none⟩], mdNone⟩

/-- Witness for C5 at concrete cursor states: a function-call response
followed by a finish-reason terminator resolves to the accumulated calls; a
finish-reason-free text response is fatal. -/
theorem c5_witness :
    stream_tool_get [fcStreamResponse, finishWithTextResponse] 0 =
      .ok ⟨[ToolCall.from_object "f" [("x", .num 1)]], 0⟩ ∧
    stream_tool_get [⟨[⟨⟨.model, [.text "bad"]⟩, none⟩], mdNone⟩] 0 =
      .error (.unexpectedModelBehaviour streamToolMsg) := by
  constructor
  · exact (c5_stream_tool_get [fcStreamResponse, finishWithTextResponse] 0
      (by intro r hr; simp at hr; rcases hr with h | h <;> subst h <;> simp
        [fcStreamResponse, finishWithTextResponse])).1
      (by intro r hr; simp at hr; rcases hr with h | h <;> subst h
          · left; rfl
          · right; rfl)
  · exact (c5_stream_tool_get [⟨[⟨⟨.model, [.text "bad"]⟩, none⟩], mdNone⟩] 0
      (by intro r hr; simp at hr; subst hr; simp)).2
      ⟨⟨[⟨⟨.model, [.text "bad"]⟩, none⟩], mdNone⟩, by simp, rfl, rfl⟩

/-! ## C4 -/

/-- Helper: a true loop condition pins down a last parsed response. -/
theorem lastResponseHasParts_true {rs : List GResponse}
    (h : lastResponseHasParts rs = true) : ∃ last, rs.getLast? = some last := by
  unfold lastResponseHasParts at h
  match hl : rs.getLast? with
  | some last => exact ⟨last, rfl⟩
  | none => rw [hl] at h; cases h

/-- C4 (amended): the stream-start logic appends each chunk to the growing
buffer and re-parses it, but its stop condition inspects only the LAST
response of each partial parse: it stops at the first chunk after which the
parse's last response has a non-empty candidates list whose first candidate
has at least one content part, classifying THAT last response to choose the
text or tool-call cursor; if no chunk ever satisfies this, it fails with the
fatal 'Streamed response ended without content or tool calls' error — even
when an earlier response of some parse did have content parts (see the
counterexample). -/
theorem c4_stream_start (parse : String → List GResponse) (chunks : List String)
    (content : String) :
    ((∀ i, i < chunks.length →
        lastResponseHasParts (parse (streamBuf content chunks i)) = false) →
      process_streamed_response parse chunks content =
        .error (.unexpectedModelBehaviour streamEndMsg)) ∧
    (∀ i, i < chunks.length →
      lastResponseHasParts (parse (streamBuf content chunks i)) = true →
      (∀ j, j < i → lastResponseHasParts (parse (streamBuf content chunks j)) = false) →
      ∃ last, (parse (streamBuf content chunks i)).getLast? = some last ∧
        process_streamed_response parse chunks content =
          classify_start (streamBuf content chunks i) (chunks.drop (i + 1)) last) := by
  induction chunks generalizing content with
  | nil =>
    refine ⟨fun _ => rfl, fun i hi => ?_⟩
    simp at hi
  | cons c rest ih =>
    constructor
    · intro hall
      have h0 : lastResponseHasParts (parse (content ++ c)) = false := hall 0 (by simp)
      have hrec := (ih (content ++ c)).1 (fun i hi => hall (i + 1) (by simpa using hi))
      simp only [process_streamed_response, h0, Bool.false_eq_true, if_false]
      exact hrec
    · intro i hi htrue hmin
      match i with
      | 0 =>
        have h0 : lastResponseHasParts (parse (content ++ c)) = true := htrue
        obtain ⟨last, hlast⟩ := lastResponseHasParts_true h0
        refine ⟨last, hlast, ?_⟩
        simp only [process_streamed_response, h0, if_true, hlast]
        rfl
      | j + 1 =>
        have h0 : lastResponseHasParts (parse (content ++ c)) = false :=
          hmin 0 (Nat.succ_pos j)
        obtain ⟨last, hlast, hproc⟩ := (ih (content ++ c)).2 j (by simpa using hi)
          htrue (fun k hk => hmin (k + 1) (by omega))
        refine ⟨last, hlast, ?_⟩
        simp only [process_streamed_response, h0, Bool.false_eq_true, if_false]
        exact hproc

def respWithTextPartC4 : GResponse := ⟨[⟨⟨.model, [.text "hi"]⟩, none⟩], mdNone⟩

def respNoPartsC4 : GResponse := ⟨[⟨⟨.model, []⟩, none⟩], mdNone⟩

/-- A concrete partial parse: the single chunk "c1" decodes to TWO
responses at once, the first of which has a content part while the last
does not (e.g. a trailing empty terminator). -/
def parseTwoAtOnce : String → List GResponse :=
  fun s => if s = "c1" then [respWithTextPartC4, respNoPartsC4] else []

/-- Counterexample to C4 as stated: the first parsed response has a content
part, so the claim says the loop stops there and classifies it (a text
cursor); the code instead inspects only the LAST parsed response, never
stops, and — the stream being over — fails with the fatal
stream-ended-without-content error. -/
theorem c4_counterexample :
    firstCandidateParts respWithTextPartC4 = [.text "hi"] ∧
    parseTwoAtOnce "c1" = [respWithTextPartC4, respNoPartsC4] ∧
    firstCandidateParts respNoPartsC4 = [] ∧
    process_streamed_response parseTwoAtOnce ["c1"] "" =
      .error (.unexpectedModelBehaviour streamEndMsg) := ⟨rfl, rfl, rfl, rfl⟩

/-- A concrete two-chunk stream: after the second chunk the buffer parses to
a single all-function-call response. -/
def parseAfterTwo : String → List GResponse :=
  fun s => if s = "c1c2" then [fcStreamResponse] else []

/-- Witness for C4's amended theorem on a concrete stream: the first chunk
yields no usable response, the second does, and the tool-call cursor with
the accumulated buffer is returned. -/
theorem c4_witness :
    process_streamed_response parseAfterTwo ["c1", "c2"] "" =
      .ok (.toolCalls "c1c2" []) := by
  obtain ⟨last, hlast, hproc⟩ := (c4_stream_start parseAfterTwo ["c1", "c2"] "").2
    1 (by decide) (by rfl) (fun j hj => by
      match j, hj with
      | 0, _ => rfl)
  have hsome : (some fcStreamResponse : Option GResponse) = some last := hlast
  injection hsome with heq
  rw [hproc, ← heq]
  rfl

/-! ## C2

The refs-chain check does NOT protect against every `$ref` cycle.  In
`_simplify` the loop `for schema in any_of:` rebinds `schema`, so while a
definition body is being simplified only the LAST `anyOf` member is
`type`-dispatched — the body's own `properties` are never visited and a
`$ref` hidden there survives.  After the `$ref` branch inlines a definition
it returns without reprocessing the merged node, so the surviving reference
is only resolved later, by the caller, with the caller's (shorter) refs
chain.  On the schema below this re-resolution happens with an empty chain
every time, the chain never grows, and the recursion never terminates:
Python overflows the stack (`RecursionError`) instead of raising the
"Recursive `$ref`s" user error the spec requires. -/

/-- A plain `{"type": "string"}` node. -/
def strTypeNode : JVal := .obj [("type", .str "string")]

/-- `{"$ref": "#/$defs/X"}`. -/
def cyclicRefNode : JVal := .obj [("$ref", .str "#/$defs/X")]

/-- `{"anyOf": [{"$ref": "#/$defs/X"}], "type": "object"}`: the node whose
simplification never terminates. -/
def cyclicInnerNode : JVal :=
  .obj [("anyOf", .arr [cyclicRefNode]), ("type", .str "object")]

/-- The body of definition `X`: its `anyOf` ends in a harmless string node
(so the shadowed dispatch never touches the body's own `properties`), while
`properties.p` holds the cyclic node referring back to `X`. -/
def cyclicDefBody : JVal :=
  .obj [("anyOf", .arr [strTypeNode]), ("type", .str "object"),
    ("properties", .obj [("p", cyclicInnerNode)])]

def cyclicDefs : JVal := .obj [("X", cyclicDefBody)]

/-- The failing input: a schema whose `$defs` table contains the
self-referential definition `X` and whose root is the cyclic node. -/
def cyclicSchema : JVal :=
  .obj [("$defs", cyclicDefs), ("anyOf", .arr [cyclicRefNode]),
    ("type", .str "object")]

/-- Helper: one full turn of the non-terminating cycle consumes exactly four
units of fuel and returns to the same arguments. -/
theorem cyclic_step (t : Nat)
    (h : simplifyNode (t + 3) cyclicDefs cyclicInnerNode [] = .error .outOfFuel) :
    simplifyNode (t + 7) cyclicDefs cyclicInnerNode [] = .error .outOfFuel := by
  have e0 : simplifyProps (t + 4) cyclicDefs [("p", cyclicInnerNode)] [] =
      (match simplifyNode (t + 3) cyclicDefs cyclicInnerNode [] with
       | .error e => .error e
       | .ok (v', d') => .ok ([("p", v')], d')) := rfl
  have e1 : simplifyObject (t + 5) cyclicDefs cyclicDefBody [] =
      (match simplifyProps (t + 4) cyclicDefs [("p", cyclicInnerNode)] [] with
       | .error e => .error e
       | .ok (props', defs') =>
         .ok (.obj [("anyOf", .arr [strTypeNode]), ("type", .str "object"),
           ("properties", .obj props')], defs')) := rfl
  have e3 : simplifyNode (t + 7) cyclicDefs cyclicInnerNode [] =
      (match simplifyObject (t + 5) cyclicDefs cyclicDefBody [] with
       | .error e => .error e
       | .ok (last', defsf) =>
         .ok (.obj [("anyOf", .arr [last']), ("type", .str "object")], defsf)) := rfl
  rw [e3, e1, e0, h]

/-- Helper: on the cyclic node, the simplifier runs out of any amount of
fuel — the Python recursion never terminates. -/
theorem cyclic_loop :
    ∀ n, simplifyNode n cyclicDefs cyclicInnerNode [] = .error .outOfFuel := by
  intro n
  induction n using Nat.strong_induction_on with
  | _ n ih =>
    match n, ih with
    | 0, _ => rfl
    | 1, _ => rfl
    | 2, _ => rfl
    | 3, _ => rfl
    | 4, _ => rfl
    | 5, _ => rfl
    | 6, _ => rfl
    | (t + 7), ih => exact cyclic_step t (ih (t + 3) (by omega))

/-- C2, settled against the code as a code bug: `cyclicSchema` contains a
`$ref` cycle (`$defs.X.properties.p` refers back to `X`), yet `simplify`
neither raises the "Recursive `$ref`s in JSON Schema are not supported by
Gemini" user error nor terminates — it exhausts EVERY fuel bound, i.e. the
Python code recurses without bound (crashing with `RecursionError`),
contradicting the specified behaviour that a `$ref` cycle is detected via
the refs chain and reported as a user-configuration error, and that
everything else terminates. -/
theorem c2_simplify_nonterminating_on_ref_cycle :
    ∀ fuel, GeminiJsonSchema.simplify fuel cyclicSchema = .error .outOfFuel := by
  intro fuel
  have h := cyclic_loop fuel
  have e : GeminiJsonSchema.simplify fuel cyclicSchema =
      (match simplifyNode fuel cyclicDefs cyclicInnerNode [] with
       | .error e => .error e
       | .ok (schema', _) => .ok schema') := rfl
  rw [e, h]

/-! ## C8 — a heap model for the deep-copy discipline of `__init__`

C8 is about Python object identity: `_GeminiJsonSchema.__init__` runs
`self.schema = deepcopy(schema)` and then mutates — `self.schema.pop('$defs', {})`
in `__init__` itself, and the in-place rewriting done by `simplify`.  Value
semantics cannot express "the caller's object is unchanged", so this claim
gets a small heap model: JSON nodes live in an addressed store, `deepcopy`
allocates only fresh addresses (strictly above every existing one), the
`pop('$defs')` writes only at the copied root, and the rewriting itself is
the pure simplifier already defined above, applied to the value read off
the copy (its Python mutations run inside `self.schema`/`self.defs`, i.e.
inside the fresh copy, and produce no heap writes at pre-existing
addresses).  The theorem: every pre-existing address still holds exactly
its old node after construction-plus-simplify, so the caller's schema
reads back unchanged. -/

abbrev Addr := Nat

/-- A heap JSON node: children are held by address, as Python object
references. -/
inductive HNode where
  | null
  | bool (b : Bool)
  | num (n : Int)
  | str (s : String)
  | arr (elems : List Addr)
  | obj (fields : List (String × Addr))
deriving Repr

/-- The store: an addressed heap of JSON nodes. -/
abbrev Store := List (Addr × HNode)

def Store.lookup : Store → Addr → Option HNode
  | [], _ => none
  | (x, v) :: rest, a => if x = a then some v else Store.lookup rest a

def Store.insert : Store → Addr → HNode → Store
  | [], a, v => [(a, v)]
  | (x, w) :: rest, a, v =>
    if x = a then (a, v) :: rest else (x, w) :: Store.insert rest a v

/-- An upper bound on the allocated addresses. -/
def Store.maxAddr : Store → Nat
  | [] => 0
  | (x, _) :: rest => max x (Store.maxAddr rest)

/-- Allocate a fresh address for a node. -/
def Store.alloc (σ : Store) (v : HNode) : Store × Addr :=
  (σ.insert (σ.maxAddr + 1) v, σ.maxAddr + 1)

theorem Store.lookup_le_maxAddr (σ : Store) (b : Addr)
    (h : (σ.lookup b).isSome) : b ≤ σ.maxAddr := by
  induction σ with
  | nil => rw [Store.lookup] at h; cases h
  | cons p rest ih =>
    obtain ⟨x, v⟩ := p
    rw [Store.lookup] at h
    rw [Store.maxAddr]
    by_cases hx : x = b
    · subst hx; exact Nat.le_max_left x _
    · rw [if_neg hx] at h
      exact le_trans (ih h) (Nat.le_max_right x _)

theorem Store.lookup_insert_ne (σ : Store) (a b : Addr) (v : HNode)
    (h : b ≠ a) : (σ.insert a v).lookup b = σ.lookup b := by
  have hab : ¬a = b := fun hc => h hc.symm
  induction σ with
  | nil =>
    simp [Store.insert, Store.lookup, hab]
  | cons p rest ih =>
    obtain ⟨x, w⟩ := p
    by_cases hx : x = a
    · subst hx
      simp [Store.insert, Store.lookup, hab]
    · simp only [Store.insert, if_neg hx, Store.lookup]
      by_cases hb : x = b
      · rw [if_pos hb, if_pos hb]
      · rw [if_neg hb, if_neg hb, ih]

theorem Store.le_maxAddr_insert (σ : Store) (a : Addr) (v : HNode) :
    σ.maxAddr ≤ (σ.insert a v).maxAddr ∧ a ≤ (σ.insert a v).maxAddr := by
  induction σ with
  | nil =>
    rw [Store.insert, Store.maxAddr, Store.maxAddr]
    exact ⟨Nat.zero_le _, le_max_left a _⟩
  | cons p rest ih =>
    obtain ⟨x, w⟩ := p
    by_cases hx : x = a
    · subst hx
      rw [Store.insert, if_pos rfl, Store.maxAddr, Store.maxAddr]
      exact ⟨le_refl _, le_max_left x _⟩
    · rw [Store.insert, if_neg hx, Store.maxAddr, Store.maxAddr]
      exact ⟨max_le_max (le_refl x) ih.1, le_trans ih.2 (le_max_right x _)⟩

/-! `copy.deepcopy`: recursively duplicate the object graph into fresh
addresses (with fuel: `deepcopy` of an acyclic Python value terminates;
the sources only call it on freshly parsed JSON schemas). -/

mutual

def dcopy : Nat → Store → Addr → Option (Store × Addr)
  | 0, _, _ => none
  | fuel + 1, σ, a =>
    match σ.lookup a with
    | none => none
    | some .null => some (σ.alloc .null)
    | some (.bool b) => some (σ.alloc (.bool b))
    | some (.num n) => some (σ.alloc (.num n))
    | some (.str s) => some (σ.alloc (.str s))
    | some (.arr elems) =>
      match dcopyList fuel σ elems with
      | none => none
      | some (σ', elems') => some (σ'.alloc (.arr elems'))
    | some (.obj fields) =>
      match dcopyFields fuel σ fields with
      | none => none
      | some (σ', fields') => some (σ'.alloc (.obj fields'))
termination_by structural n _ _ => n

def dcopyList : Nat → Store → List Addr → Option (Store × List Addr)
  | 0, _, _ => none
  | _ + 1, σ, [] => some (σ, [])
  | fuel + 1, σ, a :: rest =>
    match dcopy fuel σ a with
    | none => none
    | some (σ', a') =>
      match dcopyList fuel σ' rest with
      | none => none
      | some (σ'', rest') => some (σ'', a' :: rest')
termination_by structural n _ _ => n

def dcopyFields : Nat → Store → List (String × Addr) →
    Option (Store × List (String × Addr))
  | 0, _, _ => none
  | _ + 1, σ, [] => some (σ, [])
  | fuel + 1, σ, (k, a) :: rest =>
    match dcopy fuel σ a with
    | none => none
    | some (σ', a') =>
      match dcopyFields fuel σ' rest with
      | none => none
      | some (σ'', rest') => some (σ'', (k, a') :: rest')
termination_by structural n _ _ => n

end

/-! Reading a JSON value off the heap. -/

mutual

def readback : Nat → Store → Addr → Option JVal
  | 0, _, _ => none
  | fuel + 1, σ, a =>
    match σ.lookup a with
    | none => none
    | some .null => some .null
    | some (.bool b) => some (.bool b)
    | some (.num n) => some (.num n)
    | some (.str s) => some (.str s)
    | some (.arr elems) =>
      match readbackList fuel σ elems with
      | none => none
      | some vs => some (.arr vs)
    | some (.obj fields) =>
      match readbackFields fuel σ fields with
      | none => none
      | some fs => some (.obj fs)
termination_by structural n _ _ => n

def readbackList : Nat → Store → List Addr → Option (List JVal)
  | 0, _, _ => none
  | _ + 1, _, [] => some []
  | fuel + 1, σ, a :: rest =>
    match readback fuel σ a with
    | none => none
    | some v =>
      match readbackList fuel σ rest with
      | none => none
      | some vs => some (v :: vs)
termination_by structural n _ _ => n

def readbackFields : Nat → Store → List (String × Addr) → Option JDict
  | 0, _, _ => none
  | _ + 1, _, [] => some []
  | fuel + 1, σ, (k, a) :: rest =>
    match readback fuel σ a with
    | none => none
    | some v =>
      match readbackFields fuel σ rest with
      | none => none
      | some vs => some ((k, v) :: vs)
termination_by structural n _ _ => n

end

/-- `self.schema.pop('$defs', {})` performed in place on the copied root
(the only `__init__` mutation; a non-dict root raises without writing). -/
def popDefsHeap (σ : Store) (c : Addr) : Store :=
  match σ.lookup c with
  | some (.obj fields) => σ.insert c (.obj (fields.filter (fun p => p.1 ≠ "$defs")))
  | _ => σ

/-- `_GeminiJsonSchema(schema).simplify()` over the heap: deep-copy the
caller's schema, pop `$defs` in place on the copy, and run the (pure)
simplifier on the value the copy denotes.  Returns the final store and the
result (`none` when the copy or the readback ran out of fuel). -/
def geminiSchemaRunHeap (fuel : Nat) (σ : Store) (a0 : Addr) :
    Store × Option (Except Err JVal) :=
  match dcopy fuel σ a0 with
  | none => (σ, none)
  | some (σ1, c) =>
    match readback fuel σ1 c with
    | none => (popDefsHeap σ1 c, none)
    | some v => (popDefsHeap σ1 c, some (GeminiJsonSchema.simplify fuel v))

/-- Helper: allocation never touches a pre-existing address and returns an
address strictly above every pre-existing one. -/
theorem Store.alloc_spec (σ0 σ1 : Store) (c : Addr) (v : HNode)
    (h : σ0.alloc v = (σ1, c)) :
    (∀ b, b ≤ σ0.maxAddr → σ1.lookup b = σ0.lookup b) ∧
      σ0.maxAddr ≤ σ1.maxAddr ∧ σ0.maxAddr < c ∧ c ≤ σ1.maxAddr := by
  rw [Store.alloc] at h
  injection h with e1 e2
  subst e1
  subst e2
  refine ⟨?_, ?_, ?_, ?_⟩
  · intro b hb
    exact Store.lookup_insert_ne σ0 (σ0.maxAddr + 1) b v
      (Nat.ne_of_lt (Nat.lt_succ_of_le hb))
  · exact le_trans (Nat.le_succ _) (Store.le_maxAddr_insert σ0 (σ0.maxAddr + 1) v).2
  · exact Nat.lt_succ_self _
  · exact (Store.le_maxAddr_insert σ0 (σ0.maxAddr + 1) v).2

/-- Helper: `deepcopy` never touches a pre-existing address and returns a
root strictly above every pre-existing address. -/
theorem dcopy_extends : ∀ fuel,
    (∀ σ a σ' c, dcopy fuel σ a = some (σ', c) →
      (∀ b, b ≤ σ.maxAddr → σ'.lookup b = σ.lookup b) ∧
        σ.maxAddr ≤ σ'.maxAddr ∧ σ.maxAddr < c ∧ c ≤ σ'.maxAddr) ∧
    (∀ σ as σ' as', dcopyList fuel σ as = some (σ', as') →
      (∀ b, b ≤ σ.maxAddr → σ'.lookup b = σ.lookup b) ∧ σ.maxAddr ≤ σ'.maxAddr) ∧
    (∀ σ fs σ' fs', dcopyFields fuel σ fs = some (σ', fs') →
      (∀ b, b ≤ σ.maxAddr → σ'.lookup b = σ.lookup b) ∧ σ.maxAddr ≤ σ'.maxAddr) := by
  intro fuel
  induction fuel with
  | zero =>
    refine ⟨?_, ?_, ?_⟩ <;> intro σ x σ' y h <;> exact Option.noConfusion h
  | succ n ih =>
    obtain ⟨ihc, ihl, ihf⟩ := ih
    refine ⟨?_, ?_, ?_⟩
    · intro σ a σ' c h
      rw [dcopy] at h
      match hl : σ.lookup a with
      | none => simp only [hl] at h; exact Option.noConfusion h
      | some .null =>
        simp only [hl] at h; injection h with h'
        exact Store.alloc_spec σ σ' c _ h'
      | some (.bool bb) =>
        simp only [hl] at h; injection h with h'
        exact Store.alloc_spec σ σ' c _ h'
      | some (.num nn) =>
        simp only [hl] at h; injection h with h'
        exact Store.alloc_spec σ σ' c _ h'
      | some (.str ss) =>
        simp only [hl] at h; injection h with h'
        exact Store.alloc_spec σ σ' c _ h'
      | some (.arr elems) =>
        simp only [hl] at h
        match hc : dcopyList n σ elems with
        | none => simp only [hc] at h; exact Option.noConfusion h
        | some (σ1, elems') =>
          simp only [hc] at h; injection h with h'
          obtain ⟨hagree, hmax⟩ := ihl σ elems σ1 elems' hc
          obtain ⟨ha1, ha2, ha3, ha4⟩ := Store.alloc_spec σ1 σ' c _ h'
          refine ⟨?_, le_trans hmax ha2, Nat.lt_of_le_of_lt hmax ha3, ha4⟩
          intro b hb
          rw [ha1 b (le_trans hb hmax), hagree b hb]
      | some (.obj fields) =>
        simp only [hl] at h
        match hc : dcopyFields n σ fields with
        | none => simp only [hc] at h; exact Option.noConfusion h
        | some (σ1, fields') =>
          simp only [hc] at h; injection h with h'
          obtain ⟨hagree, hmax⟩ := ihf σ fields σ1 fields' hc
          obtain ⟨ha1, ha2, ha3, ha4⟩ := Store.alloc_spec σ1 σ' c _ h'
          refine ⟨?_, le_trans hmax ha2, Nat.lt_of_le_of_lt hmax ha3, ha4⟩
          intro b hb
          rw [ha1 b (le_trans hb hmax), hagree b hb]
    · intro σ as σ' as' h
      match as with
      | [] =>
        rw [dcopyList] at h; injection h with h'
        injection h' with e1 e2
        subst e1
        exact ⟨fun b _ => rfl, Nat.le_refl _⟩
      | a :: rest =>
        rw [dcopyList] at h
        match hc : dcopy n σ a with
        | none => simp only [hc] at h; exact Option.noConfusion h
        | some (σ1, a') =>
          simp only [hc] at h
          match hc2 : dcopyList n σ1 rest with
          | none => simp only [hc2] at h; exact Option.noConfusion h
          | some (σ2, rest') =>
            simp only [hc2] at h; injection h with h'
            injection h' with e1 e2
            subst e1
            obtain ⟨hag1, hm1, _, _⟩ := ihc σ a σ1 a' hc
            obtain ⟨hag2, hm2⟩ := ihl σ1 rest σ2 rest' hc2
            refine ⟨?_, le_trans hm1 hm2⟩
            intro b hb
            rw [hag2 b (le_trans hb hm1), hag1 b hb]
    · intro σ fs σ' fs' h
      match fs with
      | [] =>
        rw [dcopyFields] at h; injection h with h'
        injection h' with e1 e2
        subst e1
        exact ⟨fun b _ => rfl, Nat.le_refl _⟩
      | (k, a) :: rest =>
        rw [dcopyFields] at h
        match hc : dcopy n σ a with
        | none => simp only [hc] at h; exact Option.noConfusion h
        | some (σ1, a') =>
          simp only [hc] at h
          match hc2 : dcopyFields n σ1 rest with
          | none => simp only [hc2] at h; exact Option.noConfusion h
          | some (σ2, rest') =>
            simp only [hc2] at h; injection h with h'
            injection h' with e1 e2
            subst e1
            obtain ⟨hag1, hm1, _, _⟩ := ihc σ a σ1 a' hc
            obtain ⟨hag2, hm2⟩ := ihf σ1 rest σ2 rest' hc2
            refine ⟨?_, le_trans hm1 hm2⟩
            intro b hb
            rw [hag2 b (le_trans hb hm1), hag1 b hb]

/-- Helper: a readback only depends on the addresses the store populates, so
a store that agrees on every populated address reads back the same value. -/
theorem readback_frame : ∀ fuel (σ σ' : Store),
    (∀ b, (σ.lookup b).isSome → σ'.lookup b = σ.lookup b) →
    (∀ a v, readback fuel σ a = some v → readback fuel σ' a = some v) ∧
    (∀ as vs, readbackList fuel σ as = some vs → readbackList fuel σ' as = some vs) ∧
    (∀ fs ds, readbackFields fuel σ fs = some ds → readbackFields fuel σ' fs = some ds) := by
  intro fuel
  induction fuel with
  | zero =>
    intro σ σ' hagree
    refine ⟨?_, ?_, ?_⟩ <;> intro x y h <;> exact Option.noConfusion h
  | succ n ih =>
    intro σ σ' hagree
    obtain ⟨ihc, ihl, ihf⟩ := ih σ σ' hagree
    refine ⟨?_, ?_, ?_⟩
    · intro a v h
      rw [readback] at h ⊢
      match hl : σ.lookup a with
      | none => simp only [hl] at h; exact Option.noConfusion h
      | some node =>
        have hl' : σ'.lookup a = some node := by
          rw [hagree a (by rw [hl]; rfl), hl]
        simp only [hl] at h
        simp only [hl']
        match node, h with
        | .null, h => exact h
        | .bool b, h => exact h
        | .num nn, h => exact h
        | .str ss, h => exact h
        | .arr elems, h =>
          match hc : readbackList n σ elems with
          | none => simp only [hc] at h; exact Option.noConfusion h
          | some vs =>
            simp only [hc] at h
            simp only [ihl elems vs hc]
            exact h
        | .obj fields, h =>
          match hc : readbackFields n σ fields with
          | none => simp only [hc] at h; exact Option.noConfusion h
          | some ds =>
            simp only [hc] at h
            simp only [ihf fields ds hc]
            exact h
    · intro as vs h
      match as with
      | [] => exact h
      | a :: rest =>
        rw [readbackList] at h ⊢
        match hc : readback n σ a with
        | none => simp only [hc] at h; exact Option.noConfusion h
        | some v =>
          simp only [hc] at h
          simp only [ihc a v hc]
          match hc2 : readbackList n σ rest with
          | none => simp only [hc2] at h; exact Option.noConfusion h
          | some vs' =>
            simp only [hc2] at h
            simp only [ihl rest vs' hc2]
            exact h
    · intro fs ds h
      match fs with
      | [] => exact h
      | (k, a) :: rest =>
        rw [readbackFields] at h ⊢
        match hc : readback n σ a with
        | none => simp only [hc] at h; exact Option.noConfusion h
        | some v =>
          simp only [hc] at h
          simp only [ihc a v hc]
          match hc2 : readbackFields n σ rest with
          | none => simp only [hc2] at h; exact Option.noConfusion h
          | some ds' =>
            simp only [hc2] at h
            simp only [ihf rest ds' hc2]
            exact h

/-- C8: the simplifier operates only on a private deep copy — after
constructing `_GeminiJsonSchema` (deep copy plus the in-place
`pop('$defs')` on the copy) and running `simplify`, every pre-existing heap
address is untouched, so the caller's original schema object reads back
exactly as before. -/
theorem c8_simplify_preserves_caller_schema (fuel readFuel : Nat) (σ : Store)
    (a0 : Addr) (v0 : JVal) (h : readback readFuel σ a0 = some v0) :
    readback readFuel (geminiSchemaRunHeap fuel σ a0).1 a0 = some v0 := by
  rw [geminiSchemaRunHeap]
  match hc : dcopy fuel σ a0 with
  | none => exact h
  | some (σ1, c) =>
    obtain ⟨hagree, hmax, hclow, hchigh⟩ := (dcopy_extends fuel).1 σ a0 σ1 c hc
    have hagree1 : ∀ b, (σ.lookup b).isSome → σ1.lookup b = σ.lookup b := by
      intro b hb
      exact hagree b (Store.lookup_le_maxAddr σ b hb)
    have hagree2 : ∀ b, (σ.lookup b).isSome →
        (popDefsHeap σ1 c).lookup b = σ.lookup b := by
      intro b hb
      have hble : b ≤ σ.maxAddr := Store.lookup_le_maxAddr σ b hb
      have hbc : b ≠ c := Nat.ne_of_lt (Nat.lt_of_le_of_lt hble hclow)
      rw [popDefsHeap]
      match hlc : σ1.lookup c with
      | some (.obj fields) =>
        simp only
        rw [Store.lookup_insert_ne σ1 c b _ hbc]
        exact hagree1 b hb
      | some .null => simp only; exact hagree1 b hb
      | some (.bool x) => simp only; exact hagree1 b hb
      | some (.num x) => simp only; exact hagree1 b hb
      | some (.str x) => simp only; exact hagree1 b hb
      | some (.arr x) => simp only; exact hagree1 b hb
      | none => simp only; exact hagree1 b hb
    have hframe := (readback_frame readFuel σ (popDefsHeap σ1 c) hagree2).1 a0 v0 h
    show readback readFuel
        (match readback fuel σ1 c with
         | none => (popDefsHeap σ1 c, none)
         | some v => (popDefsHeap σ1 c, some (GeminiJsonSchema.simplify fuel v))).1
        a0 = some v0
    match readback fuel σ1 c with
    | none => exact hframe
    | some v => exact hframe

/-- A two-node caller heap: address 0 holds `{"type": <addr 1>}` and
address 1 holds `"object"`. -/
def callerStore : Store := [(0, .obj [("type", 1)]), (1, .str "object")]

/-- Witness for C8: on the concrete caller heap, running the
construction-plus-simplify pipeline leaves the caller's schema reading back
unchanged. -/
theorem c8_witness :
    readback 3 (geminiSchemaRunHeap 9 callerStore 0).1 0 =
      some (.obj [("type", .str "object")]) :=
  c8_simplify_preserves_caller_schema 9 3 callerStore 0
    (.obj [("type", .str "object")]) rfl

end PydanticAI
